import Mathlib

/-!
Verification of the core of `iso-freeze` against its design specification.

The Python sources are embedded shallowly:

* `lib.py` — the `PyPackage` dataclass and the `run_pip` subprocess wrapper.
  Subprocess invocations are modelled by an oracle `runner : PipCmd → Nat × String`
  giving each command an exit status and captured stdout.  `run_pip` returns
  `none` exactly when the Python function reaches `sys.exit()` (which happens
  only when `subprocess.check_output` raises `CalledProcessError`, i.e. only
  when `check_output=True`; `subprocess.run` without `check=True` never raises
  on a non-zero exit status).
* `pin_requirements.py` — `build_reqirements_file_contents` (the source's own
  spelling).  Python's `list.sort(key=str.lower)` is a stable sort whose
  comparison is code-point-lexicographic on the lower-cased strings; it is
  embedded as `List.insertionSort lowerKeyLe`, which is stable and sorts by the
  same total preorder, hence produces the same list as any stable sort.
* `get_requirements.py` — `read_pip_report`.  `str.replace("=", ":")` with a
  single-character pattern is the character-wise map `replaceEqWithColon`, and
  `str.lower()` is the character-wise map `pyLower`, which models Python's
  ASCII case folding only: theorems about the sort key therefore restrict
  their scope to ASCII text, where the two agree exactly (see `asciiStr`).
* `sync.py` — `sync` and its helpers, instrumented to return the list of pip
  commands issued, in order, together with a flag telling whether the run
  completed (rather than terminating early through `sys.exit`).
-/

namespace IsoFreeze

/-- The `PyPackage` dataclass of `lib.py`: name, version, `requested` flag and
optional hash. -/
structure PyPackage where
  name : String
  version : String
  requested : Bool := false
  hash : Option String := none
deriving DecidableEq

/-- Python `str.lower()` in its ASCII behavior: lower-case each character with
`Char.toLower`, which folds exactly `A`–`Z`.  On ASCII strings this is exactly
`str.lower()`; Python's Unicode folding of non-ASCII characters (for instance
`É` to `é`) is not modelled, so every theorem whose subject is this sort key
restricts its scope to ASCII text (`asciiStr`). -/
def pyLower (s : String) : String := ⟨s.data.map Char.toLower⟩

/-- An ASCII string: every character's code point is below 128.  On such text
`Char.toLower` agrees character by character with Python's `str.lower` (which
on non-ASCII text folds further characters and can even change the length), so
on ASCII text `pyLower` is exactly Python's `str.lower` and `lowerKeyLe` below
is exactly Python's comparison of the lower-cased sort keys. -/
def asciiStr (s : String) : Prop := ∀ c ∈ s.data, c.toNat < 128

instance (s : String) : Decidable (asciiStr s) :=
  inferInstanceAs (Decidable (∀ c ∈ s.data, c.toNat < 128))

/-- Python character comparison: by code point. -/
def charLt (a b : Char) : Bool := a.toNat < b.toNat

/-- Python string comparison `a <= b`: lexicographic on the code points. -/
def charListLe : List Char → List Char → Bool
  | [], _ => true
  | _ :: _, [] => false
  | a :: as, b :: bs =>
    if charLt a b then true
    else if charLt b a then false
    else charListLe as bs

/-- The comparison used by `list.sort(key=str.lower)`: Python `<=` on the
lower-cased strings.  Faithful to the program exactly on ASCII strings, where
`pyLower` agrees with `str.lower` (see `asciiStr`). -/
def lowerKeyLe (a b : String) : Prop := charListLe (pyLower a).data (pyLower b).data = true

instance : DecidableRel lowerKeyLe := fun a b =>
  inferInstanceAs (Decidable (charListLe (pyLower a).data (pyLower b).data = true))

theorem charListLe_cons (a b : Char) (as bs : List Char) :
    charListLe (a :: as) (b :: bs) =
      if a.toNat < b.toNat then true
      else if b.toNat < a.toNat then false
      else charListLe as bs := by
  simp [charListLe, charLt]

theorem charListLe_total : ∀ a b : List Char, charListLe a b = true ∨ charListLe b a = true
  | [], _ => Or.inl rfl
  | _ :: _, [] => Or.inr rfl
  | a :: as, b :: bs => by
    rw [charListLe_cons, charListLe_cons]
    rcases Nat.lt_trichotomy a.toNat b.toNat with h | h | h
    · left
      rw [if_pos h]
    · have hba : ¬ b.toNat < a.toNat := by omega
      have hab : ¬ a.toNat < b.toNat := by omega
      rw [if_neg hab, if_neg hba, if_neg hba, if_neg hab]
      exact charListLe_total as bs
    · right
      rw [if_pos h]

theorem char_eq_of_toNat_eq {a b : Char} (h : a.toNat = b.toNat) : a = b := by
  have hv : a.val = b.val := by
    apply UInt32.ext
    simpa [Char.toNat] using h
  cases a
  cases b
  simp_all

theorem charListLe_trans :
    ∀ {a b c : List Char}, charListLe a b = true → charListLe b c = true →
      charListLe a c = true
  | [], _, _, _, _ => rfl
  | _ :: _, [], _, h1, _ => by simp [charListLe] at h1
  | _ :: _, _ :: _, [], _, h2 => by simp [charListLe] at h2
  | a :: as, b :: bs, c :: cs, h1, h2 => by
    rw [charListLe_cons] at h1 h2 ⊢
    rcases Nat.lt_trichotomy a.toNat b.toNat with hab | hab | hab
    · rcases Nat.lt_trichotomy b.toNat c.toNat with hbc | hbc | hbc
      · rw [if_pos (by omega : a.toNat < c.toNat)]
      · rw [if_pos (by omega : a.toNat < c.toNat)]
      · rw [if_neg (by omega : ¬ b.toNat < c.toNat), if_pos hbc] at h2
        exact absurd h2 (by simp)
    · rcases Nat.lt_trichotomy b.toNat c.toNat with hbc | hbc | hbc
      · rw [if_pos (by omega : a.toNat < c.toNat)]
      · rw [if_neg (by omega : ¬ a.toNat < b.toNat),
          if_neg (by omega : ¬ b.toNat < a.toNat)] at h1
        rw [if_neg (by omega : ¬ b.toNat < c.toNat),
          if_neg (by omega : ¬ c.toNat < b.toNat)] at h2
        rw [if_neg (by omega : ¬ a.toNat < c.toNat),
          if_neg (by omega : ¬ c.toNat < a.toNat)]
        exact charListLe_trans h1 h2
      · rw [if_neg (by omega : ¬ b.toNat < c.toNat), if_pos hbc] at h2
        exact absurd h2 (by simp)
    · rw [if_neg (by omega : ¬ a.toNat < b.toNat), if_pos hab] at h1
      exact absurd h1 (by simp)

theorem charListLe_antisymm :
    ∀ {a b : List Char}, charListLe a b = true → charListLe b a = true → a = b
  | [], [], _, _ => rfl
  | [], _ :: _, _, h2 => by simp [charListLe] at h2
  | _ :: _, [], h1, _ => by simp [charListLe] at h1
  | a :: as, b :: bs, h1, h2 => by
    rw [charListLe_cons] at h1 h2
    rcases Nat.lt_trichotomy a.toNat b.toNat with hab | hab | hab
    · rw [if_neg (by omega : ¬ b.toNat < a.toNat), if_pos hab] at h2
      exact absurd h2 (by simp)
    · have heq : a = b := char_eq_of_toNat_eq hab
      rw [if_neg (by omega : ¬ a.toNat < b.toNat),
        if_neg (by omega : ¬ b.toNat < a.toNat)] at h1 h2
      rw [heq, charListLe_antisymm h1 h2]
    · rw [if_neg (by omega : ¬ a.toNat < b.toNat), if_pos hab] at h1
      exact absurd h1 (by simp)

instance : IsTotal String lowerKeyLe :=
  ⟨fun a b => charListLe_total (pyLower a).data (pyLower b).data⟩

instance : IsTrans String lowerKeyLe :=
  ⟨fun _ _ _ h1 h2 => charListLe_trans h1 h2⟩

theorem lowerKeyLe_antisymm {a b : String} (h1 : lowerKeyLe a b) (h2 : lowerKeyLe b a) :
    pyLower a = pyLower b :=
  String.ext (charListLe_antisymm h1 h2)

/-- Python rendering of an `Optional[str]` inside an f-string: `str(None)` is
the text `None`. -/
def pyStrOfOption : Option String → String
  | some s => s
  | none => "None"

/-- One rendered line of `build_reqirements_file_contents`
(`pin_requirements.py`): `name==version`, plus the hash continuation when
hashes are requested. -/
def pinnedFormat (hashes : Bool) (package : PyPackage) : String :=
  let base := package.name ++ "==" ++ package.version
  if hashes then base ++ " \\\n    --hash=" ++ pyStrOfOption package.hash else base

/-- The `top_level_requirements` list built by the loop in
`build_reqirements_file_contents`: rendered lines of the records with
`requested == True`, in input order. -/
def top_level_requirements (requirements : List PyPackage) (hashes : Bool) : List String :=
  (requirements.filter (fun package => package.requested)).map (pinnedFormat hashes)

/-- The `dependency_requirements` list built by the same loop: rendered lines
of the records with `requested == False`, in input order. -/
def dependency_requirements (requirements : List PyPackage) (hashes : Bool) : List String :=
  (requirements.filter (fun package => !package.requested)).map (pinnedFormat hashes)

/-- `build_reqirements_file_contents` from `pin_requirements.py` (the source's
own spelling).  Both pending lists are sorted with `sort(key=str.lower)`, a
stable sort by the lower-cased line, embedded as `List.insertionSort
lowerKeyLe`; the dependency block is appended only when `dependency_requirements`
is non-empty. -/
def build_reqirements_file_contents (requirements : List PyPackage) (hashes : Bool) :
    List String :=
  let top := List.insertionSort lowerKeyLe (top_level_requirements requirements hashes)
  let dep := dependency_requirements requirements hashes
  ("# Top level requirements" :: top) ++
    (if dep.isEmpty then []
     else "# Dependencies of top level requirements" :: List.insertionSort lowerKeyLe dep)

/-- One element of the `install` collection of a pip report, with the fields
`read_pip_report` reads: `metadata.name`, `metadata.version`, `requested` and
`download_info.archive_info.hash`. -/
structure RawReportEntry where
  name : String
  version : String
  requested : Bool
  hash : String
deriving DecidableEq

/-- A raw pip report as `read_pip_report` sees it: `install` is `none` when the
key is absent (`pip_report.get("install")` returns `None`). -/
structure PipReport where
  install : Option (List RawReportEntry)

/-- Python `str.replace("=", ":")` for the single-character pattern: every `=`
character becomes `:`. -/
def replaceEqWithColon (s : String) : String :=
  ⟨s.data.map (fun c => if c = '=' then ':' else c)⟩

/-- The `PyPackage` built from one report entry inside the loop of
`read_pip_report`. -/
def normalizeEntry (package : RawReportEntry) : PyPackage :=
  { name := package.name, version := package.version, requested := package.requested,
    hash := some (replaceEqWithColon package.hash) }

/-- `read_pip_report` from `get_requirements.py`: `if pip_report.get("install"):`
is Python truthiness, so an absent key and an empty list both take the `else`
branch and return `None`. -/
def read_pip_report (pip_report : PipReport) : Option (List PyPackage) :=
  match pip_report.install with
  | none => none
  | some entries => if entries.isEmpty then none else some (entries.map normalizeEntry)

/-- One row of `pip list --format json` output, with the two fields
`get_installed_packages` reads (further JSON fields are ignored). -/
structure PipListRow where
  name : String
  version : String

/-- The pip commands `sync` can issue, identified by their distinguishing
arguments. -/
inductive PipCmd where
  | pipList
  | uninstall (pkgs : List String)
  | install (pkgs : List String)
deriving DecidableEq

/-- `run_pip` from `lib.py`.  `runner` is the subprocess oracle: exit status and
captured stdout of each command.  The result is `none` exactly when the Python
function terminates the process through `sys.exit()`: that happens only in the
`check_output=True` branch, because `subprocess.check_output` raises
`CalledProcessError` on a non-zero exit status while `subprocess.run` without
`check=True` (the `check_output=False` branch) never raises on one. -/
def run_pip (runner : PipCmd → Nat × String) (command : PipCmd) (check_output : Bool) :
    Option (Option String) :=
  if check_output then
    if (runner command).1 = 0 then some (some (runner command).2) else none
  else
    some none

/-- `get_installed_packages` from `sync.py`: each JSON row becomes a
`PyPackage` with default `requested`/`hash`. -/
def get_installed_packages (pip_list_output : List PipListRow) : List PyPackage :=
  pip_list_output.map (fun package => { name := package.name, version := package.version })

/-- `get_additional_packages` from `sync.py`: names installed but not in the
report, except `pip` and `setuptools`.  Membership tests are exact string
comparisons (`in` on a `list[str]`). -/
def get_additional_packages (installed_packages : List PyPackage)
    (to_install : List PyPackage) : List String :=
  let installed_names_only := installed_packages.map PyPackage.name
  let to_install_names_only := to_install.map PyPackage.name
  installed_names_only.filter (fun package =>
    !to_install_names_only.contains package &&
      !(["pip", "setuptools"] : List String).contains package)

/-- `format_package_list` from `sync.py`: `name==version` strings for
`pip install`. -/
def format_package_list (packages : List PyPackage) : List String :=
  packages.map (fun package => package.name ++ "==" ++ package.version)

/-- `sync` from `sync.py`, instrumented to return the pip commands issued in
order and whether the run completed.  `parsePipList` embeds `json.loads` on the
captured `pip list` output.  Steps, as in the source: run `pip list`
(`check_output=True`, so a failure is fatal), compute `additional_packages`,
issue one batched uninstall when that list is truthy (non-empty), then issue
one `pip install --upgrade` for all requirements. -/
def sync (runner : PipCmd → Nat × String) (parsePipList : String → List PipListRow)
    (requirements : List PyPackage) : List PipCmd × Bool :=
  match run_pip runner PipCmd.pipList true with
  | none => ([PipCmd.pipList], false)
  | some out =>
    let installed_packages := get_installed_packages (parsePipList (out.getD ""))
    let additional_packages := get_additional_packages installed_packages requirements
    let installCmd := PipCmd.install (format_package_list requirements)
    if additional_packages.isEmpty then
      match run_pip runner installCmd false with
      | none => ([PipCmd.pipList, installCmd], false)
      | some _ => ([PipCmd.pipList, installCmd], true)
    else
      match run_pip runner (PipCmd.uninstall additional_packages) false with
      | none => ([PipCmd.pipList, PipCmd.uninstall additional_packages], false)
      | some _ =>
        match run_pip runner installCmd false with
        | none =>
          ([PipCmd.pipList, PipCmd.uninstall additional_packages, installCmd], false)
        | some _ =>
          ([PipCmd.pipList, PipCmd.uninstall additional_packages, installCmd], true)

/-- A subprocess oracle under which every `pip uninstall` exits with status 1
and every other command succeeds with empty output. -/
def failingUninstallRunner : PipCmd → Nat × String
  | PipCmd.uninstall _ => (1, "")
  | _ => (0, "")

theorem replaceEqWithColon_append_sep {algo digest : String}
    (ha : '=' ∉ algo.data) (hd : '=' ∉ digest.data) :
    replaceEqWithColon (algo ++ "=" ++ digest) = algo ++ ":" ++ digest := by
  apply String.ext
  have hid : ∀ l : List Char, '=' ∉ l →
      l.map (fun c => if c = '=' then ':' else c) = l := by
    intro l hl
    rw [List.map_congr_left (g := id) ?_, List.map_id]
    intro c hc
    have : c ≠ '=' := fun hce => hl (hce ▸ hc)
    simp [this]
  simp only [replaceEqWithColon, String.data_append]
  show (algo.data ++ ("=" : String).data ++ digest.data).map _ =
    algo.data ++ (":" : String).data ++ digest.data
  simp only [List.map_append, hid algo.data ha, hid digest.data hd]
  rfl

/-- C5.  For every report entry whose raw hash string is
`<algorithm>=<digest>` with a single separator (no further `=` inside either
part), the Normalizer produces the record hash `<algorithm>:<digest>`, for
every algorithm name. -/
theorem c5_hash_separator_rewritten (entry : RawReportEntry) (algo digest : String)
    (ha : '=' ∉ algo.data) (hd : '=' ∉ digest.data)
    (he : entry.hash = algo ++ "=" ++ digest) :
    (normalizeEntry entry).hash = some (algo ++ ":" ++ digest) := by
  simp only [normalizeEntry, he, replaceEqWithColon_append_sep ha hd]

theorem c5_witness :
    (normalizeEntry ⟨"cool-package", "2.0.1", true, "sha256=abc123"⟩).hash
      = some ("sha256" ++ ":" ++ "abc123") :=
  c5_hash_separator_rewritten ⟨"cool-package", "2.0.1", true, "sha256=abc123"⟩
    "sha256" "abc123" (by decide) (by decide) (by decide)

/-- C6.  The Normalizer returns the distinguished absent result `none` exactly
when the report's install collection is absent or empty, and returns the
present list of normalized records for every non-empty install collection. -/
theorem c6_empty_install_is_absent (pip_report : PipReport) :
    (read_pip_report pip_report = none ↔
      pip_report.install = none ∨ pip_report.install = some [])
    ∧ ∀ entries, pip_report.install = some entries → entries ≠ [] →
        read_pip_report pip_report = some (entries.map normalizeEntry) := by
  obtain ⟨inst⟩ := pip_report
  constructor
  · cases inst with
    | none => simp [read_pip_report]
    | some entries => cases entries <;> simp [read_pip_report]
  · intro entries hinst hne
    cases inst with
    | none => exact absurd hinst (by simp)
    | some found =>
      have : found = entries := by simpa using hinst
      subst this
      simp [read_pip_report, List.isEmpty_iff, hne]

theorem c6_witness :
    read_pip_report ⟨some []⟩ = none
    ∧ read_pip_report ⟨none⟩ = none
    ∧ read_pip_report ⟨some [⟨"tomli", "2.0.1", true, "sha256=1234"⟩]⟩
        = some [normalizeEntry ⟨"tomli", "2.0.1", true, "sha256=1234"⟩] :=
  ⟨(c6_empty_install_is_absent ⟨some []⟩).1.mpr (Or.inr rfl),
   (c6_empty_install_is_absent ⟨none⟩).1.mpr (Or.inl rfl),
   (c6_empty_install_is_absent ⟨some [⟨"tomli", "2.0.1", true, "sha256=1234"⟩]⟩).2
     [⟨"tomli", "2.0.1", true, "sha256=1234"⟩] rfl (by decide)⟩

/-- C9.  The removal set never contains `pip` or `setuptools`, its elements
appear in the original installed order (it is a sublist of the installed
names), an empty installed list yields an empty removal set, and the spec's
worked example `installed=[pip, setuptools, cowsay], desired=[pip]` yields
exactly `[cowsay]`. -/
theorem c9_protected_packages_and_order :
    (∀ installed_packages to_install : List PyPackage,
        "pip" ∉ get_additional_packages installed_packages to_install
        ∧ "setuptools" ∉ get_additional_packages installed_packages to_install
        ∧ (get_additional_packages installed_packages to_install).Sublist
            (installed_packages.map PyPackage.name))
    ∧ (∀ to_install : List PyPackage, get_additional_packages [] to_install = [])
    ∧ get_additional_packages
        [{ name := "pip", version := "22.2" }, { name := "setuptools", version := "60.0" },
         { name := "cowsay", version := "5.0" }]
        [{ name := "pip", version := "22.2", requested := true }] = ["cowsay"] := by
  refine ⟨fun installed_packages to_install => ⟨?_, ?_, ?_⟩, fun _ => rfl, by decide⟩
  · intro hmem
    rw [get_additional_packages, List.mem_filter] at hmem
    simp at hmem
  · intro hmem
    rw [get_additional_packages, List.mem_filter] at hmem
    simp at hmem
  · exact List.filter_sublist (installed_packages.map PyPackage.name)

/-- C10.  The Normalizer replaces every occurrence of `=` in the raw hash
string, not only the algorithm/digest separator: no record hash ever contains
`=` (while lengths are preserved), and the multi-separator input
`sha256=ab=cd` becomes `sha256:ab:cd`, altered beyond the separator rewrite. -/
theorem c10_every_equals_sign_replaced :
    (∀ (entry : RawReportEntry) (h : String),
        (normalizeEntry entry).hash = some h →
          '=' ∉ h.data ∧ h.length = entry.hash.length)
    ∧ (normalizeEntry ⟨"pyjokes", "0.6.0", true, "sha256=ab=cd"⟩).hash
        = some "sha256:ab:cd"
    ∧ ("sha256:ab:cd" : String) ≠ "sha256:ab=cd" := by
  refine ⟨?_, by decide, by decide⟩
  intro entry h hh
  have hrepl : h = replaceEqWithColon entry.hash := by
    have := hh
    simp only [normalizeEntry, Option.some.injEq] at this
    exact this.symm
  subst hrepl
  constructor
  · intro hmem
    simp only [replaceEqWithColon, List.mem_map] at hmem
    obtain ⟨c, -, hc⟩ := hmem
    by_cases hce : c = '='
    · rw [if_pos hce] at hc
      exact absurd hc (by decide)
    · rw [if_neg hce] at hc
      exact hce hc
  · show (replaceEqWithColon entry.hash).data.length = entry.hash.data.length
    simp [replaceEqWithColon]

theorem c10_witness :
    '=' ∉ ("sha256:ab:cd" : String).data
    ∧ ("sha256:ab:cd" : String).length = ("sha256=ab=cd" : String).length :=
  c10_every_equals_sign_replaced.1 ⟨"pyjokes", "0.6.0", true, "sha256=ab=cd"⟩
    "sha256:ab:cd" (by decide)

/-- C2 counterexample.  The claim says a failing removal batch is fatal and
aborts the sync before any later step.  It is not: with the removal
subprocess exiting with status 1, `sync` still issues the install batch
afterwards and runs to completion, because `run_pip` with
`check_output=False` calls `subprocess.run` without `check=True`, which never
raises `CalledProcessError`, so the `except CalledProcessError: sys.exit()`
handler is unreachable on that path. -/
theorem c2_counterexample :
    (failingUninstallRunner (PipCmd.uninstall ["cowsay"])).1 = 1
    ∧ sync failingUninstallRunner (fun _ => [⟨"cowsay", "5.0"⟩])
        [⟨"tomli", "2.0.1", true, none⟩]
      = ([PipCmd.pipList, PipCmd.uninstall ["cowsay"],
          PipCmd.install ["tomli==2.0.1"]], true) :=
  ⟨rfl, by decide⟩

/-- C2 as amended.  Only the collaborator invocations whose output is captured
(`check_output=True`, i.e. the `pip list` snapshot) are fatal on a non-zero
exit status: a failing snapshot terminates the sync immediately, with no later
step issued.  The removal and install batches are run through `run_pip` with
`check_output=False`, which never signals failure, so whenever the snapshot
succeeds the sync issues the install batch and completes regardless of the
exit status of the removal or install subprocess: their failures are silently
masked, not fatal. -/
theorem c2_only_captured_output_failures_fatal (runner : PipCmd → Nat × String)
    (parsePipList : String → List PipListRow) (requirements : List PyPackage) :
    (∀ command, run_pip runner command false = some none)
    ∧ ((runner PipCmd.pipList).1 ≠ 0 →
        sync runner parsePipList requirements = ([PipCmd.pipList], false))
    ∧ ((runner PipCmd.pipList).1 = 0 →
        (sync runner parsePipList requirements).2 = true
        ∧ PipCmd.install (format_package_list requirements)
            ∈ (sync runner parsePipList requirements).1) := by
  refine ⟨fun _ => rfl, ?_, ?_⟩
  · intro hfail
    simp [sync, run_pip, hfail]
  · intro hok
    simp only [sync, run_pip, hok, if_true, ite_true, Option.getD_some,
      Bool.false_eq_true, if_false, ite_false]
    by_cases hempty : (get_additional_packages
        (get_installed_packages (parsePipList (runner PipCmd.pipList).2))
        requirements).isEmpty = true
    · rw [if_pos hempty]
      exact ⟨rfl, by simp⟩
    · rw [if_neg hempty]
      exact ⟨rfl, by simp⟩

theorem c2_witness :
    sync (fun _ => (1, "")) (fun _ => []) [] = ([PipCmd.pipList], false)
    ∧ (sync failingUninstallRunner (fun _ => [⟨"pyjokes", "0.6.0"⟩])
        [{ name := "tomli", version := "2.0.1", requested := true }]).2 = true :=
  ⟨(c2_only_captured_output_failures_fatal (fun _ => (1, "")) (fun _ => []) []).2.1
      (by decide),
   ((c2_only_captured_output_failures_fatal failingUninstallRunner
      (fun _ => [⟨"pyjokes", "0.6.0"⟩])
      [{ name := "tomli", version := "2.0.1", requested := true }]).2.2 rfl).1⟩

/-- C1 counterexample.  The Environment Differ compares names with exact
string equality, not case-insensitively: an installed `Cowsay` whose name
differs from the desired `cowsay` only in letter case is proposed for
removal. -/
theorem c1_counterexample :
    get_additional_packages [{ name := "Cowsay", version := "5.0" }]
        [{ name := "cowsay", version := "5.0", requested := true }]
      = ["Cowsay"]
    ∧ pyLower "Cowsay" = pyLower "cowsay" := by
  exact ⟨by decide, by decide⟩

/-- C1 as amended.  For every installed name outside the protected pair
`pip`/`setuptools`, the removal set contains that name exactly when it is
absent from the desired names under exact (case-sensitive) string
comparison. -/
theorem c1_removal_set_membership (installed_packages to_install : List PyPackage)
    (package : String) (hprot : package ∉ (["pip", "setuptools"] : List String)) :
    package ∈ get_additional_packages installed_packages to_install ↔
      package ∈ installed_packages.map PyPackage.name
        ∧ package ∉ to_install.map PyPackage.name := by
  rw [get_additional_packages, List.mem_filter]
  simp only [List.mem_cons, List.not_mem_nil, or_false] at hprot
  push_neg at hprot
  simp [hprot.1, hprot.2]

/-- C7.  When the `pip list` snapshot succeeds, the sync trace never contains
an uninstall command if the removal set is empty, and otherwise consists of
exactly the snapshot, then one batched uninstall of the whole removal set,
then the install command: the removal is a single invocation and strictly
precedes the installation. -/
theorem c7_removal_precedes_install (runner : PipCmd → Nat × String)
    (parsePipList : String → List PipListRow) (requirements : List PyPackage)
    (additional : List String)
    (hlist : (runner PipCmd.pipList).1 = 0)
    (hadd : additional = get_additional_packages
        (get_installed_packages (parsePipList (runner PipCmd.pipList).2)) requirements) :
    (additional = [] →
        (sync runner parsePipList requirements).1
          = [PipCmd.pipList, PipCmd.install (format_package_list requirements)]
        ∧ ∀ pkgs, PipCmd.uninstall pkgs ∉ (sync runner parsePipList requirements).1)
    ∧ (additional ≠ [] →
        (sync runner parsePipList requirements).1
          = [PipCmd.pipList, PipCmd.uninstall additional,
             PipCmd.install (format_package_list requirements)]) := by
  have hsync : sync runner parsePipList requirements =
      if additional.isEmpty then
        ([PipCmd.pipList, PipCmd.install (format_package_list requirements)], true)
      else
        ([PipCmd.pipList, PipCmd.uninstall additional,
          PipCmd.install (format_package_list requirements)], true) := by
    simp only [sync, run_pip, hlist, if_true, ite_true, Option.getD_some, ← hadd,
      Bool.false_eq_true, if_false, ite_false]
  constructor
  · intro hnil
    have hempty : additional.isEmpty := by simp [hnil]
    rw [hsync, if_pos hempty]
    exact ⟨rfl, by simp⟩
  · intro hne
    have hempty : ¬ additional.isEmpty := by simpa [List.isEmpty_iff] using hne
    rw [hsync, if_neg hempty]

theorem c7_witness :
    (sync (fun _ => (0, "")) (fun _ => [⟨"cowsay", "5.0"⟩]) []).1
      = [PipCmd.pipList, PipCmd.uninstall ["cowsay"], PipCmd.install []] :=
  (c7_removal_precedes_install (fun _ => (0, "")) (fun _ => [⟨"cowsay", "5.0"⟩]) []
    ["cowsay"] rfl (by decide)).2 (by decide)

theorem sep_mem_pinnedFormat_data (hashes : Bool) (package : PyPackage) :
    ∃ rest, (pinnedFormat hashes package).data
      = package.name.data ++ '=' :: '=' :: rest := by
  have hsep : ("==" : String).data = ['=', '='] := rfl
  cases hashes with
  | false =>
    refine ⟨package.version.data, ?_⟩
    simp [pinnedFormat, String.data_append, hsep]
  | true =>
    refine ⟨package.version.data ++ (" \\\n    --hash=" : String).data
      ++ (pyStrOfOption package.hash).data, ?_⟩
    simp [pinnedFormat, String.data_append, hsep]

theorem header_not_pinnedFormat (hashes : Bool) (package : PyPackage)
    (header : String) (hsep : '=' ∉ header.data) :
    pinnedFormat hashes package ≠ header := by
  intro heq
  obtain ⟨rest, hdata⟩ := sep_mem_pinnedFormat_data hashes package
  apply hsep
  rw [← heq, hdata]
  exact List.mem_append_right _ (List.mem_cons_self _ _)

/-- C4 counterexample.  The renderer does emit an empty section: on an empty
record list (every record transitive, or no records at all) the output is the
top-level header followed by zero requirement lines. -/
theorem c4_counterexample :
    build_reqirements_file_contents [] false = ["# Top level requirements"]
    ∧ top_level_requirements [] false = [] :=
  ⟨rfl, rfl⟩

/-- C4 as amended.  Only the transitive section is guarded: its header appears
in the output exactly when there is at least one transitive record, while the
top-level header is always emitted, even when the top-level section holds zero
records. -/
theorem c4_header_emission (requirements : List PyPackage) (hashes : Bool) :
    ("# Dependencies of top level requirements"
        ∈ build_reqirements_file_contents requirements hashes
      ↔ dependency_requirements requirements hashes ≠ [])
    ∧ "# Top level requirements" ∈ build_reqirements_file_contents requirements hashes := by
  constructor
  · constructor
    · intro hmem hdep
      simp only [build_reqirements_file_contents, hdep, List.isEmpty_nil, if_true,
        List.append_nil, List.mem_cons, List.mem_insertionSort] at hmem
      rcases hmem with hmem | hmem
      · exact absurd hmem (by decide)
      · obtain ⟨package, -, hpkg⟩ := List.mem_map.mp hmem
        exact header_not_pinnedFormat hashes package _ (by decide) hpkg
    · intro hdep
      rw [build_reqirements_file_contents]
      have hempty : ¬ (dependency_requirements requirements hashes).isEmpty := by
        simpa [List.isEmpty_iff] using hdep
      rw [if_neg hempty]
      exact List.mem_append_right _ (List.mem_cons_self _ _)
  · rw [build_reqirements_file_contents]
    exact List.mem_append_left _ (List.mem_cons_self _ _)

/-- C3 counterexample.  The renderer sorts by the lower-cased full line, not
by name: the name `a` strictly precedes `a-b` in case-insensitive name order,
yet the line of `a-b` is rendered before the line of `a`, because the `==`
separator of the full line compares above `-`.  So the relative order of two
rendered records is not determined by their lower-cased names only. -/
theorem c3_counterexample :
    build_reqirements_file_contents
        [{ name := "a", version := "1.0", requested := true },
         { name := "a-b", version := "1.0", requested := true }] false
      = ["# Top level requirements", "a-b==1.0", "a==1.0"]
    ∧ lowerKeyLe "a" "a-b"
    ∧ ¬ lowerKeyLe "a-b" "a" :=
  ⟨by decide, by decide, by decide⟩

/-- C3 as amended.  For records whose rendered lines are ASCII (where
`lowerKeyLe` is exactly Python's comparison of the `str.lower` sort keys and
the embedded stable sort is exactly `list.sort(key=str.lower)`), within each
rendered section (top-level and transitive) lines appear in case-insensitive
lexicographic order of the full rendered line (`name==version`, plus the hash
continuation when enabled), not of the package name alone: each section is a
permutation of its section lines sorted so that every line relates to each
later line by `lowerKeyLe`. -/
theorem c3_sections_sorted_by_whole_line (requirements : List PyPackage) (hashes : Bool)
    (hascii : ∀ package ∈ requirements, asciiStr (pinnedFormat hashes package)) :
    ∃ top dep : List String,
      build_reqirements_file_contents requirements hashes
        = ("# Top level requirements" :: top) ++
            (if dep.isEmpty then []
             else "# Dependencies of top level requirements" :: dep)
      ∧ top.Perm (top_level_requirements requirements hashes)
      ∧ dep.Perm (dependency_requirements requirements hashes)
      ∧ List.Pairwise lowerKeyLe top
      ∧ List.Pairwise lowerKeyLe dep := by
  refine ⟨List.insertionSort lowerKeyLe (top_level_requirements requirements hashes),
    List.insertionSort lowerKeyLe (dependency_requirements requirements hashes),
    ?_, List.perm_insertionSort _ _, List.perm_insertionSort _ _,
    List.sorted_insertionSort lowerKeyLe _, List.sorted_insertionSort lowerKeyLe _⟩
  rw [build_reqirements_file_contents,
    (List.perm_insertionSort lowerKeyLe
      (dependency_requirements requirements hashes)).isEmpty_eq]

theorem c3_witness :
    ∃ top dep : List String,
      build_reqirements_file_contents
          [{ name := "tomli", version := "2.0.1", requested := true },
           { name := "pyjokes", version := "0.6.0" }] false
        = ("# Top level requirements" :: top) ++
            (if dep.isEmpty then []
             else "# Dependencies of top level requirements" :: dep)
      ∧ top.Perm (top_level_requirements
          [{ name := "tomli", version := "2.0.1", requested := true },
           { name := "pyjokes", version := "0.6.0" }] false)
      ∧ dep.Perm (dependency_requirements
          [{ name := "tomli", version := "2.0.1", requested := true },
           { name := "pyjokes", version := "0.6.0" }] false)
      ∧ List.Pairwise lowerKeyLe top
      ∧ List.Pairwise lowerKeyLe dep :=
  c3_sections_sorted_by_whole_line
    [{ name := "tomli", version := "2.0.1", requested := true },
     { name := "pyjokes", version := "0.6.0" }] false (by decide)

theorem toLower_eq_sep {c : Char} (h : Char.toLower c = '=') : c = '=' := by
  unfold Char.toLower at h
  simp only [] at h
  by_cases hc : c.toNat ≥ 65 ∧ c.toNat ≤ 90
  · rw [if_pos hc] at h
    exfalso
    have h2 := congrArg Char.toNat h
    have hv : (c.toNat + 32).isValidChar := by
      constructor
      omega
    have h3 : (Char.ofNat (c.toNat + 32)).toNat = c.toNat + 32 := by
      simp only [Char.ofNat, hv, dif_pos, Char.ofNatAux]
      rfl
    rw [h3] at h2
    have h4 : ('=' : Char).toNat = 61 := by decide
    omega
  · rw [if_neg hc] at h
    exact h

theorem map_toLower_sep_free {l : List Char} (h : '=' ∉ l) :
    '=' ∉ l.map Char.toLower := by
  intro hmem
  obtain ⟨c, hc, hlc⟩ := List.mem_map.mp hmem
  exact h (toLower_eq_sep hlc ▸ hc)

theorem sep_append_inj : ∀ {A B u v : List Char}, '=' ∉ A → '=' ∉ B →
    A ++ '=' :: u = B ++ '=' :: v → A = B
  | [], [], _, _, _, _, _ => rfl
  | [], b :: bs, _, _, _, hB, h => by
    rw [List.nil_append, List.cons_append, List.cons.injEq] at h
    exact absurd (h.1 ▸ List.mem_cons_self b bs) hB
  | a :: as, [], _, _, hA, _, h => by
    rw [List.nil_append, List.cons_append, List.cons.injEq] at h
    exact absurd (h.1 ▸ List.mem_cons_self a as) hA
  | a :: as, b :: bs, u, v, hA, hB, h => by
    rw [List.cons_append, List.cons_append, List.cons.injEq] at h
    have hA' : '=' ∉ as := fun hm => hA (List.mem_cons_of_mem a hm)
    have hB' : '=' ∉ bs := fun hm => hB (List.mem_cons_of_mem b hm)
    rw [h.1, sep_append_inj hA' hB' h.2]

theorem pyLower_pinnedFormat_data (hashes : Bool) (package : PyPackage) :
    ∃ rest, (pyLower (pinnedFormat hashes package)).data
      = package.name.data.map Char.toLower ++ '=' :: '=' :: rest := by
  obtain ⟨rest, hdata⟩ := sep_mem_pinnedFormat_data hashes package
  refine ⟨rest.map Char.toLower, ?_⟩
  show (pinnedFormat hashes package).data.map Char.toLower = _
  rw [hdata, List.map_append, List.map_cons, List.map_cons]
  rfl

theorem pinnedFormat_key_injective (hashes : Bool) (p q : PyPackage)
    (hp : '=' ∉ p.name.data) (hq : '=' ∉ q.name.data)
    (hne : pyLower p.name ≠ pyLower q.name) :
    pyLower (pinnedFormat hashes p) ≠ pyLower (pinnedFormat hashes q) := by
  intro heq
  apply hne
  apply String.ext
  show p.name.data.map Char.toLower = q.name.data.map Char.toLower
  obtain ⟨ru, hu⟩ := pyLower_pinnedFormat_data hashes p
  obtain ⟨rv, hv⟩ := pyLower_pinnedFormat_data hashes q
  have hdata := congrArg String.data heq
  rw [hu, hv] at hdata
  exact sep_append_inj (map_toLower_sep_free hp) (map_toLower_sep_free hq) hdata

theorem insertionSort_eq_of_perm_of_distinct_keys {s1 s2 : List String}
    (hp : s1.Perm s2)
    (hd : s1.Pairwise (fun a b => pyLower a ≠ pyLower b)) :
    List.insertionSort lowerKeyLe s1 = List.insertionSort lowerKeyLe s2 := by
  have hsymm : ∀ {x y : String}, pyLower x ≠ pyLower y → pyLower y ≠ pyLower x :=
    fun h => h.symm
  haveI : IsAntisymm String (fun a b => lowerKeyLe a b ∧ pyLower a ≠ pyLower b) :=
    ⟨fun _ _ h1 h2 => absurd (lowerKeyLe_antisymm h1.1 h2.1) h1.2⟩
  apply List.eq_of_perm_of_sorted
    (r := fun a b => lowerKeyLe a b ∧ pyLower a ≠ pyLower b)
  · exact (List.perm_insertionSort _ _).trans (hp.trans (List.perm_insertionSort _ _).symm)
  · exact (List.sorted_insertionSort lowerKeyLe s1).and
      (((List.perm_insertionSort lowerKeyLe s1).pairwise_iff hsymm).mpr hd)
  · exact (List.sorted_insertionSort lowerKeyLe s2).and
      (((List.perm_insertionSort lowerKeyLe s2).pairwise_iff hsymm).mpr
        ((hp.pairwise_iff hsymm).mp hd))

/-- C8 counterexample.  Permutation invariance fails for record lists whose
names contain `=`: the two records named `A` and `a=` have distinct
lower-cased names (the uniqueness invariant holds), yet their rendered lines
share the sort key `a===b`, so the stable sort preserves the input order and
the two input orders render differently. -/
theorem c8_counterexample :
    ([⟨"A", "=b", true, none⟩, ⟨"a=", "b", true, none⟩] : List PyPackage).Perm
        [⟨"a=", "b", true, none⟩, ⟨"A", "=b", true, none⟩]
    ∧ ([⟨"A", "=b", true, none⟩, ⟨"a=", "b", true, none⟩] : List PyPackage).Pairwise
        (fun p q => pyLower p.name ≠ pyLower q.name)
    ∧ build_reqirements_file_contents
          [⟨"A", "=b", true, none⟩, ⟨"a=", "b", true, none⟩] false
        ≠ build_reqirements_file_contents
          [⟨"a=", "b", true, none⟩, ⟨"A", "=b", true, none⟩] false := by
  refine ⟨List.Perm.swap _ _ _, ?_, by decide⟩
  exact List.pairwise_cons.mpr ⟨by decide, List.pairwise_singleton _ _⟩

/-- C8 as amended.  For record lists that are permutations of each other,
satisfy the case-insensitive name-uniqueness invariant, and whose names are
ASCII and contain no `=` character (both true of all real distribution names,
which match `[A-Za-z0-9._-]+`), the renderer produces identical output line
sequences.  On ASCII names `pyLower` is exactly Python's `str.lower`, the
uniqueness hypothesis is exactly the data model's invariant, and the
`=`-freeness makes the lower-cased rendered-line sort keys pairwise distinct,
so the comparisons deciding the sorted order all happen inside the ASCII name
region of the lines and the stable sort's output is order-independent. -/
theorem c8_output_invariant_under_permutation (l1 l2 : List PyPackage) (hashes : Bool)
    (hperm : l1.Perm l2)
    (huniq : l1.Pairwise (fun p q => pyLower p.name ≠ pyLower q.name))
    (hascii : ∀ p ∈ l1, asciiStr p.name)
    (hnames : ∀ p ∈ l1, '=' ∉ p.name.data) :
    build_reqirements_file_contents l1 hashes
      = build_reqirements_file_contents l2 hashes := by
  have hkeys : l1.Pairwise
      (fun p q => pyLower (pinnedFormat hashes p) ≠ pyLower (pinnedFormat hashes q)) :=
    huniq.imp_of_mem (fun hpm hqm hne =>
      pinnedFormat_key_injective hashes _ _ (hnames _ hpm) (hnames _ hqm) hne)
  have hsec : ∀ f : PyPackage → Bool,
      ((l1.filter f).map (pinnedFormat hashes)).Pairwise
          (fun a b => pyLower a ≠ pyLower b)
      ∧ ((l1.filter f).map (pinnedFormat hashes)).Perm
          ((l2.filter f).map (pinnedFormat hashes)) := by
    intro f
    exact ⟨(List.Pairwise.sublist (List.filter_sublist l1) hkeys).map _ (fun _ _ h => h),
      (hperm.filter f).map _⟩
  obtain ⟨hdTop, hpTop⟩ := hsec (fun package => package.requested)
  obtain ⟨hdDep, hpDep⟩ := hsec (fun package => !package.requested)
  have htop : List.insertionSort lowerKeyLe (top_level_requirements l1 hashes)
      = List.insertionSort lowerKeyLe (top_level_requirements l2 hashes) :=
    insertionSort_eq_of_perm_of_distinct_keys hpTop hdTop
  have hdep : List.insertionSort lowerKeyLe (dependency_requirements l1 hashes)
      = List.insertionSort lowerKeyLe (dependency_requirements l2 hashes) :=
    insertionSort_eq_of_perm_of_distinct_keys hpDep hdDep
  have hemp : (dependency_requirements l1 hashes).isEmpty
      = (dependency_requirements l2 hashes).isEmpty :=
    List.Perm.isEmpty_eq hpDep
  rw [build_reqirements_file_contents, build_reqirements_file_contents,
    htop, hdep, hemp]

theorem c8_witness :
    build_reqirements_file_contents
        [{ name := "tomli", version := "2.0.1", requested := true },
         { name := "pyjokes", version := "0.6.0" }] true
      = build_reqirements_file_contents
        [{ name := "pyjokes", version := "0.6.0" },
         { name := "tomli", version := "2.0.1", requested := true }] true :=
  c8_output_invariant_under_permutation
    [{ name := "tomli", version := "2.0.1", requested := true },
     { name := "pyjokes", version := "0.6.0" }]
    [{ name := "pyjokes", version := "0.6.0" },
     { name := "tomli", version := "2.0.1", requested := true }] true
    (List.Perm.swap _ _ _)
    (List.pairwise_cons.mpr ⟨by decide, List.pairwise_singleton _ _⟩)
    (by decide)
    (by decide)

theorem c1_witness :
    ("Cowsay" ∈ get_additional_packages
        [{ name := "Cowsay", version := "5.0" }]
        [{ name := "cowsay", version := "5.0", requested := true }]) ↔
      ("Cowsay" ∈ ([{ name := "Cowsay", version := "5.0" }] : List PyPackage).map
          PyPackage.name
        ∧ "Cowsay" ∉ ([{ name := "cowsay", version := "5.0", requested := true }] :
            List PyPackage).map PyPackage.name) :=
  c1_removal_set_membership
    [{ name := "Cowsay", version := "5.0" }]
    [{ name := "cowsay", version := "5.0", requested := true }]
    "Cowsay" (by decide)

end IsoFreeze
